import Mathlib

set_option maxRecDepth 4000

/-!
Verification development for the furrctorio dependency-specification and
release-resolution engine (`furrctorio_core/src/model/fmod.rs`,
`furrctorio_core/src/error.rs`, `furrctorio_yaml/src/model/mod_entry.rs`).

The Rust code leans on the `semver` crate (`Version`, `VersionReq`) for
version parsing, displaying and constraint matching; those collaborator
functions are embedded here following the crate's grammar and evaluation
rules, restricted to ASCII input as the crate itself is.  Machine strings
are modelled as Lean `String`s backed by `List Char`.
-/

/- ### Character and string utilities -/

/-- Unicode White_Space test, as Rust's `char::is_whitespace` used by
`str::split_whitespace`. -/
def isRustWhitespace (c : Char) : Bool :=
  c.toNat = 0x09 || c.toNat = 0x0A || c.toNat = 0x0B || c.toNat = 0x0C ||
  c.toNat = 0x0D || c.toNat = 0x20 || c.toNat = 0x85 || c.toNat = 0xA0 ||
  c.toNat = 0x1680 || (0x2000 ≤ c.toNat && c.toNat ≤ 0x200A) ||
  c.toNat = 0x2028 || c.toNat = 0x2029 || c.toNat = 0x202F ||
  c.toNat = 0x205F || c.toNat = 0x3000

/-- Worker for `splitWs`: accumulates the current word (reversed). -/
def splitWsAux : List Char → List Char → List (List Char)
  | [], acc => if acc = [] then [] else [acc.reverse]
  | c :: cs, acc =>
    if isRustWhitespace c then
      if acc = [] then splitWsAux cs [] else acc.reverse :: splitWsAux cs []
    else splitWsAux cs (c :: acc)

/-- Rust `str::split_whitespace`: maximal runs of non-whitespace characters. -/
def splitWs (cs : List Char) : List (List Char) := splitWsAux cs []

/-- Split at the first occurrence of `sep`; the second component is `none`
when `sep` does not occur. -/
def splitFirst (cs : List Char) (sep : Char) : List Char × Option (List Char) :=
  match cs with
  | [] => ([], none)
  | c :: rest =>
    if c = sep then ([], some rest)
    else
      let r := splitFirst rest sep
      (c :: r.1, r.2)

/-- Split on every occurrence of `sep` (so `n` separators give `n+1` parts,
possibly empty). -/
def splitOnChar (cs : List Char) (sep : Char) : List (List Char) :=
  match cs with
  | [] => [[]]
  | c :: rest =>
    let r := splitOnChar rest sep
    if c = sep then [] :: r
    else
      match r with
      | [] => [[c]]
      | h :: t => (c :: h) :: t

/-- Lexicographic comparison of character lists by code point. -/
def cmpChars : List Char → List Char → Ordering
  | [], [] => .eq
  | [], _ :: _ => .lt
  | _ :: _, [] => .gt
  | a :: as', b :: bs => match compare a.toNat b.toNat with
    | .eq => cmpChars as' bs
    | o => o

/-- ASCII lowercasing of a string, character by character (the model of
Rust `str::to_lowercase` on the ASCII strings handled here). -/
def toLowerStr (s : String) : String := ⟨s.data.map Char.toLower⟩

/- ### The semver collaborator: versions -/

/-- One dot-separated pre-release identifier: purely numeric identifiers
compare numerically, the rest compare as ASCII strings. -/
inductive PreIdent
  | num (n : Nat)
  | alphanum (s : String)
deriving DecidableEq, Repr

/-- A strict semantic version as in the `semver` crate's `Version`. -/
structure SemVersion where
  major : Nat
  minor : Nat
  patch : Nat
  pre : List PreIdent
  build : List String
deriving DecidableEq, Repr

/-- Digits to a number (callers guarantee the characters are digits). -/
def digitsToNat (cs : List Char) : Nat :=
  cs.foldl (fun a c => a * 10 + (c.toNat - 48)) 0

/-- A semver numeric identifier: nonempty digits, no leading zero. -/
def parseNumStrict (cs : List Char) : Option Nat :=
  if cs.isEmpty then none
  else if !(cs.all Char.isDigit) then none
  else if 1 < cs.length && cs.head? == some '0' then none
  else some (digitsToNat cs)

/-- A character allowed in pre-release and build identifiers. -/
def isIdentChar (c : Char) : Bool := c.isDigit || c.isAlpha || c = '-'

/-- One pre-release identifier: alphanumeric-or-hyphen, nonempty, numeric
ones with no leading zero. -/
def parsePreIdent (cs : List Char) : Option PreIdent :=
  if cs.isEmpty then none
  else if !(cs.all isIdentChar) then none
  else if cs.all Char.isDigit then
    if 1 < cs.length && cs.head? == some '0' then none
    else some (.num (digitsToNat cs))
  else some (.alphanum (String.mk cs))

/-- One build identifier: alphanumeric-or-hyphen, nonempty. -/
def parseBuildIdent (cs : List Char) : Option String :=
  if cs.isEmpty then none
  else if !(cs.all isIdentChar) then none
  else some (String.mk cs)

/-- Model of `semver::Version::parse`: `major.minor.patch` with optional `-pre`
and `+build` suffixes; returns `none` on any deviation. -/
def parseVersion (s : String) : Option SemVersion :=
  let p1 := splitFirst s.data '+'
  let p2 := splitFirst p1.1 '-'
  match splitOnChar p2.1 '.' with
  | [a, b, c] =>
    match parseNumStrict a, parseNumStrict b, parseNumStrict c with
    | some ma, some mi, some pa =>
      let pre : Option (List PreIdent) :=
        match p2.2 with
        | none => some []
        | some p => (splitOnChar p '.').mapM parsePreIdent
      let build : Option (List String) :=
        match p1.2 with
        | none => some []
        | some bp => (splitOnChar bp '.').mapM parseBuildIdent
      match pre, build with
      | some pr, some bu => some ⟨ma, mi, pa, pr, bu⟩
      | _, _ => none
    | _, _, _ => none
  | _ => none

/-- Compare one pre-release identifier: numeric below alphanumeric. -/
def preIdCmp : PreIdent → PreIdent → Ordering
  | .num a, .num b => compare a b
  | .num _, .alphanum _ => .lt
  | .alphanum _, .num _ => .gt
  | .alphanum a, .alphanum b => cmpChars a.data b.data

/-- Lexicographic comparison of identifier lists, shorter prefix first. -/
def preIdsCmp : List PreIdent → List PreIdent → Ordering
  | [], [] => .eq
  | [], _ :: _ => .lt
  | _ :: _, [] => .gt
  | a :: as', b :: bs => match preIdCmp a b with
    | .eq => preIdsCmp as' bs
    | o => o

/-- Pre-release list comparison with the semver twist that the empty list
(no pre-release) is the greatest element. -/
def preCmp (x y : List PreIdent) : Ordering :=
  match x, y with
  | [], [] => .eq
  | [], _ :: _ => .gt
  | _ :: _, [] => .lt
  | _, _ => preIdsCmp x y

/-- Semver precedence, build metadata ignored. -/
def semverCmp (a b : SemVersion) : Ordering :=
  match compare a.major b.major with
  | .eq => match compare a.minor b.minor with
    | .eq => match compare a.patch b.patch with
      | .eq => preCmp a.pre b.pre
      | o => o
    | o => o
  | o => o

/- ### The semver collaborator: version requirements -/

/-- Comparator operators of `semver::Op`. -/
inductive Op
  | Exact
  | Greater
  | GreaterEq
  | Less
  | LessEq
  | Tilde
  | Caret
  | Wildcard
deriving DecidableEq, Repr

/-- One comparator of a version requirement. -/
structure Comparator where
  op : Op
  major : Nat
  minor : Option Nat
  patch : Option Nat
  pre : List PreIdent
deriving DecidableEq, Repr

/-- Model of `semver::VersionReq`: a conjunction of comparators; the empty list is
the `*` requirement. -/
structure VersionReq where
  comparators : List Comparator
deriving DecidableEq, Repr

/-- Drop leading ASCII spaces, as the crate's `trim_start_matches(' ')`. -/
def trimSpaces (cs : List Char) : List Char := cs.dropWhile (fun c => c = ' ')

/-- A wildcard component character. -/
def isWildcardChar (c : Char) : Bool := c = '*' || c = 'x' || c = 'X'

/-- Parse a comparator operator; the second component records whether an
operator was actually written (the default is `Caret`). -/
def parseOpRaw : List Char → Op × Bool × List Char
  | '>' :: '=' :: rest => (.GreaterEq, true, rest)
  | '<' :: '=' :: rest => (.LessEq, true, rest)
  | '>' :: rest => (.Greater, true, rest)
  | '<' :: rest => (.Less, true, rest)
  | '=' :: rest => (.Exact, true, rest)
  | '~' :: rest => (.Tilde, true, rest)
  | '^' :: rest => (.Caret, true, rest)
  | rest => (.Caret, false, rest)

/-- Take the maximal run of digits. -/
def takeDigits (cs : List Char) : List Char × List Char :=
  (cs.takeWhile Char.isDigit, cs.dropWhile Char.isDigit)

/-- Take the maximal run of identifier characters. -/
def takeIdent (cs : List Char) : List Char × List Char :=
  (cs.takeWhile isIdentChar, cs.dropWhile isIdentChar)

/-- Take a dot-separated run of identifier characters (a pre-release list
with its internal dots). -/
def takeDotIdent (cs : List Char) : List Char × List Char :=
  (cs.takeWhile (fun c => isIdentChar c || c = '.'),
   cs.dropWhile (fun c => isIdentChar c || c = '.'))

/-- Parse one comparator, as the `semver` crate's comparator grammar:
operator, optional spaces, `major[.minor[.patch[-pre]]]` with wildcard
characters allowed in the minor and patch positions. -/
def parseComparator (cs : List Char) : Option (Comparator × List Char) :=
  let o := parseOpRaw cs
  let op := o.1
  let explicitOp := o.2.1
  let cs1 := trimSpaces o.2.2
  let d := takeDigits cs1
  match parseNumStrict d.1 with
  | none => none
  | some major =>
    match d.2 with
    | '.' :: cs2 =>
      match cs2 with
      | c :: cs3 =>
        if isWildcardChar c then
          -- wildcard minor; optionally a wildcard patch may follow
          let fin := fun (rest : List Char) =>
            some (⟨if explicitOp then op else .Wildcard, major, none, none, []⟩, rest)
          match cs3 with
          | '.' :: c2 :: cs4 => if isWildcardChar c2 then fin cs4 else none
          | rest => fin rest
        else
          let dm := takeDigits (c :: cs3)
          match parseNumStrict dm.1 with
          | none => none
          | some minor =>
            match dm.2 with
            | '.' :: cs4 =>
              match cs4 with
              | c2 :: cs5 =>
                if isWildcardChar c2 then
                  some (⟨if explicitOp then op else .Wildcard, major, some minor, none, []⟩, cs5)
                else
                  let dp := takeDigits (c2 :: cs5)
                  match parseNumStrict dp.1 with
                  | none => none
                  | some patch =>
                    match dp.2 with
                    | '-' :: cs6 =>
                      let pr := takeDotIdent cs6
                      match (splitOnChar pr.1 '.').mapM parsePreIdent with
                      | none => none
                      | some pre => some (⟨op, major, some minor, some patch, pre⟩, pr.2)
                    | rest => some (⟨op, major, some minor, some patch, []⟩, rest)
              | [] => none
            | rest => some (⟨op, major, some minor, none, []⟩, rest)
      | [] => none
    | rest => some (⟨op, major, none, none, []⟩, rest)

/-- Parse a comma-separated comparator list (fuel-driven recursion). -/
def parseReqLoop : Nat → List Char → Option (List Comparator)
  | 0, _ => none
  | fuel + 1, cs =>
    match parseComparator (trimSpaces cs) with
    | none => none
    | some (c, rest) =>
      match trimSpaces rest with
      | [] => some [c]
      | ',' :: rest2 =>
        match parseReqLoop fuel rest2 with
        | none => none
        | some l => some (c :: l)
      | _ => none

/-- Model of `semver::VersionReq::parse`: a lone wildcard gives the empty (match
everything) requirement, otherwise a comma-separated comparator list. -/
def parseVersionReq (s : String) : Option VersionReq :=
  let cs := trimSpaces s.data
  match cs with
  | [] => none
  | c :: rest =>
    if isWildcardChar c && trimSpaces rest = [] then some ⟨[]⟩
    else
      match parseReqLoop (cs.length + 1) cs with
      | none => none
      | some l => some ⟨l⟩

/- ### The semver collaborator: display -/

/-- Operator symbol as printed by the crate's `Display`. -/
def opToString : Op → String
  | .Exact => "="
  | .Greater => ">"
  | .GreaterEq => ">="
  | .Less => "<"
  | .LessEq => "<="
  | .Tilde => "~"
  | .Caret => "^"
  | .Wildcard => ""

/-- Render one pre-release identifier. -/
def preIdentToString : PreIdent → String
  | .num n => toString n
  | .alphanum s => s

/-- Render a pre-release list. -/
def preToString (l : List PreIdent) : String :=
  String.intercalate (".") (l.map preIdentToString)

/-- Render one comparator as the crate's `Display` does. -/
def comparatorToString (c : Comparator) : String :=
  opToString c.op ++ toString c.major ++
  (match c.minor with
   | none => if c.op = .Wildcard then (".*") else ("")
   | some mi =>
     "." ++ toString mi ++
     (match c.patch with
      | none => if c.op = .Wildcard then (".*") else ("")
      | some pa =>
        "." ++ toString pa ++
        (if c.pre.isEmpty then ("") else ("-") ++ preToString c.pre)))

/-- Render a requirement: `*` when empty, else comparators joined by a
comma and a space. -/
def reqToString (r : VersionReq) : String :=
  if r.comparators.isEmpty then ("*")
  else String.intercalate (", ") (r.comparators.map comparatorToString)

/- ### The semver collaborator: matching -/

/-- The function `matches_exact` of the crate's evaluator. -/
def matchesExact (c : Comparator) (v : SemVersion) : Bool :=
  decide (v.major = c.major) &&
  (match c.minor with | none => true | some m => decide (v.minor = m)) &&
  (match c.patch with | none => true | some p => decide (v.patch = p)) &&
  decide (v.pre = c.pre)

/-- The function `matches_greater` of the crate's evaluator. -/
def matchesGreater (c : Comparator) (v : SemVersion) : Bool :=
  if v.major ≠ c.major then decide (c.major < v.major)
  else
    match c.minor with
    | none => false
    | some m =>
      if v.minor ≠ m then decide (m < v.minor)
      else
        match c.patch with
        | none => false
        | some p =>
          if v.patch ≠ p then decide (p < v.patch)
          else decide (preCmp v.pre c.pre = .gt)

/-- The function `matches_less` of the crate's evaluator. -/
def matchesLess (c : Comparator) (v : SemVersion) : Bool :=
  if v.major ≠ c.major then decide (v.major < c.major)
  else
    match c.minor with
    | none => false
    | some m =>
      if v.minor ≠ m then decide (v.minor < m)
      else
        match c.patch with
        | none => false
        | some p =>
          if v.patch ≠ p then decide (v.patch < p)
          else decide (preCmp v.pre c.pre = .lt)

/-- The function `matches_tilde` of the crate's evaluator. -/
def matchesTilde (c : Comparator) (v : SemVersion) : Bool :=
  if v.major ≠ c.major then false
  else
    match c.minor with
    | some m =>
      if v.minor ≠ m then false
      else
        match c.patch with
        | some p =>
          if v.patch ≠ p then decide (p < v.patch)
          else decide (preCmp v.pre c.pre ≠ .lt)
        | none => decide (preCmp v.pre c.pre ≠ .lt)
    | none =>
      match c.patch with
      | some p =>
        if v.patch ≠ p then decide (p < v.patch)
        else decide (preCmp v.pre c.pre ≠ .lt)
      | none => decide (preCmp v.pre c.pre ≠ .lt)

/-- The function `matches_caret` of the crate's evaluator. -/
def matchesCaret (c : Comparator) (v : SemVersion) : Bool :=
  if v.major ≠ c.major then false
  else
    match c.minor with
    | none => true
    | some m =>
      match c.patch with
      | none =>
        if 0 < c.major then decide (m ≤ v.minor)
        else decide (v.minor = m)
      | some p =>
        if 0 < c.major then
          (if v.minor ≠ m then decide (m < v.minor)
           else if v.patch ≠ p then decide (p < v.patch)
           else decide (preCmp v.pre c.pre ≠ .lt))
        else if 0 < m then
          (if v.minor ≠ m then false
           else if v.patch ≠ p then decide (p < v.patch)
           else decide (preCmp v.pre c.pre ≠ .lt))
        else
          (if v.minor ≠ m ∨ v.patch ≠ p then false
           else decide (preCmp v.pre c.pre ≠ .lt))

/-- Dispatch on the comparator operator, as the crate's `matches_impl`. -/
def matchesImpl (c : Comparator) (v : SemVersion) : Bool :=
  match c.op with
  | .Exact => matchesExact c v
  | .Wildcard => matchesExact c v
  | .Greater => matchesGreater c v
  | .GreaterEq => matchesExact c v || matchesGreater c v
  | .Less => matchesLess c v
  | .LessEq => matchesExact c v || matchesLess c v
  | .Tilde => matchesTilde c v
  | .Caret => matchesCaret c v

/-- The crate's `pre_is_compatible`: a pre-release version can only match
through a comparator naming exactly its triple with a pre-release. -/
def preIsCompatible (c : Comparator) (v : SemVersion) : Bool :=
  decide (c.major = v.major) && c.minor == some v.minor &&
  c.patch == some v.patch && !c.pre.isEmpty

/-- Model of `VersionReq::matches`: all comparators hold, and a pre-release version
needs some comparator compatible with its pre-release. -/
def reqMatches (r : VersionReq) (v : SemVersion) : Bool :=
  r.comparators.all (fun c => matchesImpl c v) &&
  (v.pre.isEmpty || r.comparators.any (fun c => preIsCompatible c v))

/- ### The repository model: errors and dependency prefixes -/

/-- The library's error enumeration (`furrctorio_core/src/error.rs`). -/
inductive Error
  | ParcingError (msg : String)
  | InvalidPreffix (marker : String)
  | IoError
  | APIError (msg : String)
deriving DecidableEq, Repr

/-- The dependency prefix enumeration `FModPreffix` of `fmod.rs`. -/
inductive FModPreffix
  | Required
  | Incompatible
  | Optional
  | HiddenOptional
  | NonChanging
deriving DecidableEq, Repr

/-- Model of `impl FromStr for FModPreffix`: the five marker strings, everything
else rejected with `InvalidPreffix`. -/
def fromStrPreffix (s : String) : Except Error FModPreffix :=
  if s = "!" then .ok .Incompatible
  else if s = "?" then .ok .Optional
  else if s = "(?)" then .ok .HiddenOptional
  else if s = "~" then .ok .NonChanging
  else if s = "" then .ok .Required
  else .error (.InvalidPreffix s)

/-- Model of `impl Display for FModPreffix`. -/
def preffixToString : FModPreffix → String
  | .Incompatible => "!"
  | .Optional => "?"
  | .HiddenOptional => "(?)"
  | .NonChanging => "~"
  | .Required => ""

/- ### The repository model: dependency specifications -/

/-- The struct `FModDependecies` of `fmod.rs` (field order as in the struct). -/
structure FModDependecies where
  name : String
  required_version : Option VersionReq
  preffix : FModPreffix
deriving DecidableEq, Repr

/-- Model of `impl Serialize for FModDependecies`: the four arms of the match on
`(required_version, preffix)`, using the semver `Display` for the
requirement. -/
def serializeDep (d : FModDependecies) : String :=
  match d.required_version, d.preffix with
  | some v, .Required => d.name ++ " " ++ reqToString v
  | some v, p => preffixToString p ++ " " ++ d.name ++ " " ++ reqToString v
  | none, .Required => d.name
  | none, p => preffixToString p ++ " " ++ d.name

/-- The whitespace-delimited tokens of a line, as
`s.split_whitespace().collect::<Vec<&str>>()`. -/
def tokensOf (s : String) : List String := (splitWs s.data).map String.mk

/-- Model of `impl FromStr for FModDependecies`: match over the token count; in
the 3- and 4-token arms the operator and version tokens are concatenated
and must parse as a `VersionReq`, checked before the prefix. -/
def fromStrDep (s : String) : Except Error FModDependecies :=
  match tokensOf s with
  | [pfx, name] =>
    match fromStrPreffix pfx with
    | .error e => .error e
    | .ok p => .ok ⟨name, none, p⟩
  | [pfx, name, version1, version2] =>
    match parseVersionReq (version1 ++ version2) with
    | none => .error (.ParcingError ("Invalid dependecies format: " ++ s))
    | some vers =>
      match fromStrPreffix pfx with
      | .error e => .error e
      | .ok p => .ok ⟨name, some vers, p⟩
  | [name, version1, version2] =>
    match parseVersionReq (version1 ++ version2) with
    | none => .error (.ParcingError ("Invalid dependecies format: " ++ s))
    | some vers => .ok ⟨name, some vers, .Required⟩
  | _ => .error (.ParcingError ("Invalid dependecies format: " ++ s))

/- ### The repository model: version tokens and constraint matching -/

/-- The dual version representation `VersionEncapsulate` of `fmod.rs`. -/
inductive VersionEncapsulate
  | Version (v : SemVersion)
  | String (s : String)
deriving DecidableEq, Repr

/-- Outcome of running Rust code that can panic: either a normal return
or an aborted execution with the panic message. -/
inductive Panics (α : Type)
  | ok (a : α)
  | panicked (msg : String)
deriving DecidableEq, Repr

/-- Rust `str::starts_with` for a string pattern: prefix test. -/
def startsWithStr (s pat : String) : Bool := pat.data.isPrefixOf s.data

/-- Worker for `replaceStr`, fuel-driven left-to-right scan replacing
each non-overlapping occurrence of `pat`. -/
def replaceAux (pat rep : List Char) : Nat → List Char → List Char
  | 0, s => s
  | _, [] => []
  | fuel + 1, c :: rest =>
    if pat ≠ [] ∧ pat.isPrefixOf (c :: rest) then
      rep ++ replaceAux pat rep fuel ((c :: rest).drop pat.length)
    else c :: replaceAux pat rep fuel rest

/-- Rust `str::replace`: every non-overlapping occurrence of `pat`,
scanned left to right, becomes `rep`. -/
def replaceStr (s pat rep : String) : String :=
  ⟨replaceAux pat.data rep.data s.data.length s.data⟩

/-- Model of `FModRelease::match_version`: parsed versions go to the semver
matcher; raw strings starting with `"0.0."` are matched after rewriting
every `"0.0."` to `"0.1."` in both the requirement's rendered text and
the version string (each `.unwrap()` is a potential panic); any other
raw string panics outright. -/
def matchVersion (version_req : VersionReq) (v : VersionEncapsulate) : Panics Bool :=
  match v with
  | .Version version => .ok (reqMatches version_req version)
  | .String version_str =>
    if startsWithStr version_str ("0.0.") then
      match parseVersionReq (replaceStr (reqToString version_req) ("0.0.") ("0.1.")) with
      | none => .panicked ("called `Result::unwrap()` on an `Err` value")
      | some req =>
        match parseVersion (replaceStr version_str ("0.0.") ("0.1.")) with
        | none => .panicked ("called `Result::unwrap()` on an `Err` value")
        | some ver => .ok (reqMatches req ver)
    else .panicked ("VersionReq cannot be parsed")

/- ### The SHA-1 collaborator -/

/-- 32-bit truncation. -/
def w32 (n : Nat) : Nat := n % 4294967296

/-- 32-bit left rotation. -/
def rotl (n x : Nat) : Nat := w32 (x <<< n) ||| (w32 x >>> (32 - n))

/-- The 16 initial schedule words of one 64-byte block (big endian). -/
def sha1BlockWords : List Nat → List Nat
  | b0 :: b1 :: b2 :: b3 :: rest =>
    (((b0 * 256 + b1) * 256 + b2) * 256 + b3) :: sha1BlockWords rest
  | _ => []

/-- Message-schedule expansion: emit `k` further schedule words from the
window of the 16 most recent words (most recent first). -/
def sha1Expand : Nat → List Nat → List Nat
  | 0, _ => []
  | k + 1, window =>
    let x := rotl 1 ((window.getD 2 0) ^^^ (window.getD 7 0) ^^^
                    (window.getD 13 0) ^^^ (window.getD 15 0))
    x :: sha1Expand k (x :: window.take 15)

/-- The 80 schedule words of one block. -/
def sha1Schedule (block : List Nat) : List Nat :=
  let w16 := sha1BlockWords block
  w16 ++ sha1Expand 64 w16.reverse

/-- One round's boolean function and constant. -/
def sha1FK (i b c d : Nat) : Nat × Nat :=
  if i < 20 then ((b &&& c) ||| ((b ^^^ 4294967295) &&& d), 0x5A827999)
  else if i < 40 then (b ^^^ c ^^^ d, 0x6ED9EBA1)
  else if i < 60 then ((b &&& c) ||| (b &&& d) ||| (c &&& d), 0x8F1BBCDC)
  else (b ^^^ c ^^^ d, 0xCA62C1D6)

/-- The 80 compression rounds, consuming schedule words in order. -/
def sha1Rounds (i : Nat) (ws : List Nat) (a b c d e : Nat) :
    Nat × Nat × Nat × Nat × Nat :=
  match ws with
  | [] => (a, b, c, d, e)
  | wi :: rest =>
    match sha1FK i b c d with
    | (f, k) => sha1Rounds (i + 1) rest (w32 (rotl 5 a + f + e + k + wi)) a (rotl 30 b) c d

/-- Process one 64-byte block into the running state. -/
def sha1Block (h : Nat × Nat × Nat × Nat × Nat) (block : List Nat) :
    Nat × Nat × Nat × Nat × Nat :=
  match h with
  | (h0, h1, h2, h3, h4) =>
    match sha1Rounds 0 (sha1Schedule block) h0 h1 h2 h3 h4 with
    | (a, b, c, d, e) =>
      (w32 (h0 + a), w32 (h1 + b), w32 (h2 + c), w32 (h3 + d), w32 (h4 + e))

/-- Cut a list into 64-byte chunks (fuel-driven). -/
def chunksAux : Nat → List Nat → List (List Nat)
  | 0, _ => []
  | _, [] => []
  | fuel + 1, l => l.take 64 :: chunksAux fuel (l.drop 64)

/-- Big-endian bytes of `v`, `k` bytes wide. -/
def beBytes : Nat → Nat → List Nat
  | 0, _ => []
  | k + 1, v => beBytes k (v / 256) ++ [v % 256]

/-- SHA-1 padding: `0x80`, zeros to 56 mod 64, 8-byte bit length. -/
def sha1Pad (msg : List Nat) : List Nat :=
  let zeros := (128 - (msg.length + 9) % 64) % 64
  msg ++ [0x80] ++ List.replicate zeros 0 ++ beBytes 8 (msg.length * 8)

/-- The five-word SHA-1 digest of a byte sequence. -/
def sha1Digest (msg : List Nat) : List Nat :=
  let padded := sha1Pad msg
  let h := (chunksAux (padded.length + 1) padded).foldl sha1Block
    (0x67452301, 0xEFCDAB89, 0x98BADCFE, 0x10325476, 0xC3D2E1F0)
  [h.1, h.2.1, h.2.2.1, h.2.2.2.1, h.2.2.2.2]

/-- A lowercase hexadecimal digit. -/
def hexDigit (n : Nat) : Char :=
  if n < 10 then Char.ofNat (48 + n) else Char.ofNat (87 + n)

/-- The `k` hexadecimal digits of `v`, most significant first. -/
def toHexAux : Nat → Nat → List Char
  | 0, _ => []
  | k + 1, v => toHexAux k (v / 16) ++ [hexDigit (v % 16)]

/-- Model of the `{:x}` digest rendering: the 40-character lowercase hex
rendering of the digest. -/
def sha1Hex (msg : List Nat) : String :=
  String.mk ((sha1Digest msg).foldr (fun word acc => toHexAux 8 word ++ acc) [])

/- ### The repository model: releases -/

/-- The struct `InfoJSON` of `fmod.rs`. -/
structure InfoJSON where
  name : Option String
  version : Option SemVersion
  title : Option String
  author : Option String
  factorio_version : Option String
  dependencies : List FModDependecies
deriving DecidableEq, Repr

/-- The struct `FModRelease` of `fmod.rs`; the timestamp is abstracted to an
integer. -/
structure FModRelease where
  download_url : String
  file_name : String
  info_json : InfoJSON
  released_at : Int
  version : VersionEncapsulate
  sha1 : String
deriving DecidableEq, Repr

/-- Model of `FModRelease::validate`: the lowercase hex SHA-1 of the bytes is
compared, verbatim, to the stored `sha1` string. -/
def validate (rel : FModRelease) (data : List Nat) : Bool :=
  toLowerStr (sha1Hex data) == rel.sha1

/-- Modelled from the spec: the repository calls `releases.sort()` and
`releases.iter().max()` on `Vec<FModRelease>`, but no `Ord` instance for
`FModRelease` appears under `src/`; §4.3 prescribes ordering "ascending
by version (using `Parsed` ordering where available)".  Parsed versions
are ordered by semver precedence; the spec leaves the place of raw
tokens open, so raw tokens are ordered here by their strings, after all
parsed versions. -/
def releaseLe (a b : FModRelease) : Bool :=
  match a.version, b.version with
  | .Version v1, .Version v2 => decide (semverCmp v1 v2 ≠ .gt)
  | .Version _, .String _ => true
  | .String _, .Version _ => false
  | .String s1, .String s2 => decide (cmpChars s1.data s2.data ≠ .gt)

/-- Insert into a `releaseLe`-sorted list. -/
def insertRel (a : FModRelease) : List FModRelease → List FModRelease
  | [] => [a]
  | b :: bs => if releaseLe a b then a :: b :: bs else b :: insertRel a bs

/-- The call `releases.sort()` under the modelled ordering. -/
def sortReleases : List FModRelease → List FModRelease
  | [] => []
  | a :: rest => insertRel a (sortReleases rest)

/-- The `filter(|&r| r.match_version(&self.version))` step; a panic in
the predicate aborts the whole iteration at that element. -/
def filterMatching (req : VersionReq) : List FModRelease → Panics (List FModRelease)
  | [] => .ok []
  | r :: rs =>
    match matchVersion req r.version with
    | .panicked m => .panicked m
    | .ok b =>
      match filterMatching req rs with
      | .panicked m => .panicked m
      | .ok rest => .ok (if b then r :: rest else rest)

/-- Model of `ConfigModEntry::find_last_release`, with the two network fetches
replaced by their results: the summary's `latest_release` field and the
full mod's release list.  A present `latest_release` is returned at
once; an empty release list gives `none`; otherwise the list is
filtered against the entry's version requirement, sorted, and the last
element is taken by `.unwrap()` — a panic when the filtered list is
empty. -/
def find_last_release (latest_release : Option FModRelease)
    (releases : List FModRelease) (version : VersionReq) :
    Panics (Option FModRelease) :=
  match latest_release with
  | some last => .ok (some last)
  | none =>
    if releases.isEmpty then .ok none
    else
      match filterMatching version releases with
      | .panicked m => .panicked m
      | .ok filtered =>
        match (sortReleases filtered).getLast? with
        | none => .panicked ("called `Option::unwrap()` on a `None` value")
        | some r => .ok (some r)

/- ### Concrete fixtures used by the claims -/

/-- A release with the given parsed version and declared checksum. -/
def mkRel (url : String) (v : SemVersion) (sha : String) : FModRelease :=
  ⟨url, url ++ ".zip", ⟨none, none, none, none, none, []⟩, 0, .Version v, sha⟩

/-- Release 1.0.0 of the §8 selection example. -/
def rel100 : FModRelease := mkRel ("r100") ⟨1, 0, 0, [], []⟩ ("")

/-- Release 1.2.0 of the §8 selection example. -/
def rel120 : FModRelease := mkRel ("r120") ⟨1, 2, 0, [], []⟩ ("")

/-- Release 2.0.0 of the §8 selection example. -/
def rel200 : FModRelease := mkRel ("r200") ⟨2, 0, 0, [], []⟩ ("")

/-- A release the upstream marks latest, version 5.0.0. -/
def rel500 : FModRelease := mkRel ("r500") ⟨5, 0, 0, [], []⟩ ("")

/-- The requirement `<2.0.0`. -/
def reqLt2 : VersionReq := ⟨[⟨.Less, 2, some 0, some 0, []⟩]⟩

/-- The requirement `<1.0.0`. -/
def reqLt1 : VersionReq := ⟨[⟨.Less, 1, some 0, some 0, []⟩]⟩

/-- The universal requirement `*`. -/
def reqStar : VersionReq := ⟨[]⟩

/-- The requirement `>=0.0.5` as `VersionReq::parse` produces it. -/
def req005 : VersionReq := ⟨[⟨.GreaterEq, 0, some 0, some 5, []⟩]⟩

/-- The requirement `>=0.1.5` as `VersionReq::parse` produces it. -/
def req015 : VersionReq := ⟨[⟨.GreaterEq, 0, some 1, some 5, []⟩]⟩

/- ### Helper lemmas -/

/-- A run of non-whitespace characters appended to a nonempty accumulator
forms a single word. -/
theorem splitWsAux_nows (cs : List Char) (acc : List Char)
    (h : ∀ c ∈ cs, isRustWhitespace c = false) (hacc : acc ≠ []) :
    splitWsAux cs acc = [acc.reverse ++ cs] := by
  induction cs generalizing acc with
  | nil => simp [splitWsAux, hacc]
  | cons c cs ih =>
    have hc : isRustWhitespace c = false := h c (List.mem_cons_self c cs)
    have hrest : ∀ x ∈ cs, isRustWhitespace x = false :=
      fun x hx => h x (List.mem_cons_of_mem c hx)
    rw [splitWsAux, if_neg (by simp [hc]), ih (c :: acc) hrest (by simp)]
    simp

/-- A nonempty whitespace-free character list is a single token. -/
theorem splitWs_single (cs : List Char)
    (h : ∀ c ∈ cs, isRustWhitespace c = false) (hne : cs ≠ []) :
    splitWs cs = [cs] := by
  cases cs with
  | nil => exact absurd rfl hne
  | cons c rest =>
    have hc : isRustWhitespace c = false := h c (List.mem_cons_self c rest)
    rw [splitWs, splitWsAux, if_neg (by simp [hc]),
      splitWsAux_nows rest [c] (fun x hx => h x (List.mem_cons_of_mem c hx)) (by simp)]
    simp

/-- Splitting a word, a space and a second word yields the two words. -/
theorem splitWsAux_word_sep (name : List Char)
    (hn : name ≠ []) (hnw : ∀ c ∈ name, isRustWhitespace c = false) :
    ∀ (m acc : List Char), (∀ c ∈ m, isRustWhitespace c = false) →
      acc.reverse ++ m ≠ [] →
      splitWsAux (m ++ ' ' :: name) acc = [acc.reverse ++ m, name] := by
  intro m
  induction m with
  | nil =>
    intro acc _ hacc
    have hacc' : acc ≠ [] := by
      intro h0
      exact hacc (by simp [h0])
    rw [List.nil_append, splitWsAux, if_pos (by decide),
      if_neg (by simpa using hacc')]
    rw [show splitWsAux name [] = splitWs name from rfl, splitWs_single name hnw hn]
    simp
  | cons c m ih =>
    intro acc hm hacc
    have hc : isRustWhitespace c = false := hm c (List.mem_cons_self c m)
    have hm' : ∀ x ∈ m, isRustWhitespace x = false :=
      fun x hx => hm x (List.mem_cons_of_mem c hx)
    rw [List.cons_append, splitWsAux, if_neg (by simp [hc]),
      ih (c :: acc) hm' (by simp)]
    simp

/-- Tokenizing a marker, one space and a name gives the two tokens. -/
theorem tokensOf_marker_name (mark name : String)
    (hm : mark.data ≠ []) (hmw : ∀ c ∈ mark.data, isRustWhitespace c = false)
    (hn : name.data ≠ []) (hnw : ∀ c ∈ name.data, isRustWhitespace c = false) :
    tokensOf (mark ++ " " ++ name) = [mark, name] := by
  have hsp : (" " : String).data = [' '] := by decide
  have hdata : (mark ++ " " ++ name).data = mark.data ++ ' ' :: name.data := by
    rw [String.data_append, String.data_append, hsp, List.append_assoc]
    rfl
  rw [tokensOf, hdata, splitWs,
    splitWsAux_word_sep name.data hn hnw mark.data [] hmw (by simpa using hm)]
  simp

/-- The last element of a list is a member. -/
theorem getLast?_mem' {α : Type} : ∀ {l : List α} {a : α}, l.getLast? = some a → a ∈ l
  | [], _, h => by simp [List.getLast?] at h
  | [x], a, h => by
    simp [List.getLast?] at h
    simp [h]
  | x :: y :: rest, a, h => by
    rw [List.getLast?_cons_cons] at h
    exact List.mem_cons_of_mem x (getLast?_mem' h)

/-- Membership after an ordered insertion. -/
theorem mem_insertRel {x a : FModRelease} :
    ∀ {l : List FModRelease}, x ∈ insertRel a l → x = a ∨ x ∈ l := by
  intro l
  induction l with
  | nil =>
    intro hx
    simp [insertRel] at hx
    exact Or.inl hx
  | cons b bs ih =>
    intro hx
    rw [insertRel] at hx
    by_cases hle : releaseLe a b = true
    · rw [if_pos hle] at hx
      rcases List.mem_cons.mp hx with hx | hx
      · exact Or.inl hx
      · exact Or.inr hx
    · rw [if_neg hle] at hx
      rcases List.mem_cons.mp hx with hx | hx
      · exact Or.inr (hx ▸ List.mem_cons_self b bs)
      · rcases ih hx with h1 | h1
        · exact Or.inl h1
        · exact Or.inr (List.mem_cons_of_mem b h1)

/-- Sorting does not introduce new elements. -/
theorem mem_sortReleases {x : FModRelease} :
    ∀ {l : List FModRelease}, x ∈ sortReleases l → x ∈ l := by
  intro l
  induction l with
  | nil => intro hx; simp [sortReleases] at hx
  | cons a rest ih =>
    intro hx
    rw [sortReleases] at hx
    rcases mem_insertRel hx with h1 | h1
    · simp [h1]
    · exact List.mem_cons_of_mem a (ih h1)

/-- Every release surviving the filter satisfied the requirement. -/
theorem filterMatching_mem {req : VersionReq} :
    ∀ {l f : List FModRelease}, filterMatching req l = .ok f →
      ∀ x ∈ f, matchVersion req x.version = .ok true := by
  intro l
  induction l with
  | nil =>
    intro f h x hx
    rw [filterMatching] at h
    cases h
    simp at hx
  | cons r rs ih =>
    intro f h x hx
    rw [filterMatching] at h
    rcases hm : matchVersion req r.version with b | m <;> rw [hm] at h
    · rcases hf : filterMatching req rs with rest' | m2 <;> rw [hf] at h
      · cases h
        cases b with
        | true =>
          rcases List.mem_cons.mp hx with hx' | hx'
          · exact hx' ▸ hm
          · exact ih hf x hx'
        | false => exact ih hf x hx
      · cases h
    · cases h

/-- Lowercase hex digits are fixed by lowercasing. -/
theorem hexDigit_toLower : ∀ m, m < 16 → Char.toLower (hexDigit m) = hexDigit m := by
  decide

/-- All characters emitted by `toHexAux` are fixed by lowercasing. -/
theorem toHexAux_toLower : ∀ (k v : Nat), ∀ c ∈ toHexAux k v, Char.toLower c = c := by
  intro k
  induction k with
  | zero => intro v c hc; simp [toHexAux] at hc
  | succ k ih =>
    intro v c hc
    rw [toHexAux] at hc
    rcases List.mem_append.mp hc with h1 | h1
    · exact ih (v / 16) c h1
    · rw [List.mem_singleton.mp h1]
      exact hexDigit_toLower (v % 16) (Nat.mod_lt v (by decide))

/-- All characters of a rendered digest are fixed by lowercasing. -/
theorem digestChars_toLower : ∀ (ws : List Nat),
    ∀ c ∈ ws.foldr (fun word acc => toHexAux 8 word ++ acc) [], Char.toLower c = c := by
  intro ws
  induction ws with
  | nil => intro c hc; simp at hc
  | cons w ws ih =>
    intro c hc
    rcases List.mem_append.mp (by simpa using hc) with h1 | h1
    · exact toHexAux_toLower 8 w c h1
    · exact ih c h1

/-- Mapping a function that fixes every element is the identity. -/
theorem map_id_of_fixed {α : Type} (f : α → α) :
    ∀ (l : List α), (∀ c ∈ l, f c = c) → l.map f = l := by
  intro l
  induction l with
  | nil => intro _; rfl
  | cons c cs ih =>
    intro h
    rw [List.map_cons, h c (List.mem_cons_self c cs),
      ih (fun x hx => h x (List.mem_cons_of_mem c hx))]

/-- The rendered digest is already lowercase. -/
theorem toLowerStr_sha1Hex (data : List Nat) : toLowerStr (sha1Hex data) = sha1Hex data := by
  rw [sha1Hex, toLowerStr]
  exact congrArg String.mk (map_id_of_fixed Char.toLower _ (digestChars_toLower _))

/- ### Claim theorems -/

/-- C1 (amended): for every dependency spec with a non-Required prefix, no
version range and a nonempty whitespace-free name, parsing the serialized
text yields back an equal spec; the Required shapes do not round-trip (see
the counterexample). -/
theorem C1_roundtrip_nonrequired_noversion (name : String) (p : FModPreffix)
    (hp : p ≠ .Required) (hne : name.data ≠ [])
    (hws : ∀ c ∈ name.data, isRustWhitespace c = false) :
    fromStrDep (serializeDep ⟨name, none, p⟩) = .ok ⟨name, none, p⟩ := by
  cases p with
  | Required => exact absurd rfl hp
  | Incompatible =>
    have ht := tokensOf_marker_name ("!") name (by decide) (by decide) hne hws
    show fromStrDep ("!" ++ " " ++ name) = _
    simp only [fromStrDep]
    rw [ht]
    rfl
  | Optional =>
    have ht := tokensOf_marker_name ("?") name (by decide) (by decide) hne hws
    show fromStrDep ("?" ++ " " ++ name) = _
    simp only [fromStrDep]
    rw [ht]
    rfl
  | HiddenOptional =>
    have ht := tokensOf_marker_name ("(?)") name (by decide) (by decide) hne hws
    show fromStrDep ("(?)" ++ " " ++ name) = _
    simp only [fromStrDep]
    rw [ht]
    rfl
  | NonChanging =>
    have ht := tokensOf_marker_name ("~") name (by decide) (by decide) hne hws
    show fromStrDep ("~" ++ " " ++ name) = _
    simp only [fromStrDep]
    rw [ht]
    rfl

/-- Witness for C1: the Optional spec named helper_mod round-trips. -/
theorem C1_roundtrip_nonrequired_noversion_witness :
    fromStrDep (serializeDep ⟨"helper_mod", none, .Optional⟩) =
      .ok ⟨"helper_mod", none, .Optional⟩ :=
  C1_roundtrip_nonrequired_noversion ("helper_mod") .Optional (by decide)
    (by decide) (by decide)

/-- Counterexample for C1: a Required spec with no version serializes to
the bare name, which the parser rejects, so parse does not invert
serialize there. -/
theorem C1_required_bare_name_counterexample :
    serializeDep ⟨"base", none, .Required⟩ = "base" ∧
    fromStrDep ("base") = .error (.ParcingError ("Invalid dependecies format: " ++ "base")) :=
  ⟨rfl, rfl⟩

/-- C2 (amended): on a raw version string not beginning with 0.0.,
match_version aborts with a panic rather than returning an error value. -/
theorem C2_raw_nonquirk_panics (req : VersionReq) (s : String)
    (h : startsWithStr s ("0.0.") = false) :
    matchVersion req (.String s) = .panicked ("VersionReq cannot be parsed") := by
  simp [matchVersion, h]

/-- Witness for C2: the raw string abc reaches the panic branch. -/
theorem C2_raw_nonquirk_panics_witness :
    matchVersion reqStar (.String ("abc")) = .panicked ("VersionReq cannot be parsed") :=
  C2_raw_nonquirk_panics reqStar ("abc") (by decide)

/-- Counterexample for C2: on the raw version string not-semver the
matcher panics, so no VersionError failure result reaches the caller. -/
theorem C2_panics_not_error_counterexample :
    matchVersion reqStar (.String ("not-semver")) =
      .panicked ("VersionReq cannot be parsed") := rfl

/-- C3: with a nonempty release list in which no release satisfies the
range, find_last_release panics on unwrap of the empty filtered list
instead of returning a successful absent result. -/
theorem C3_empty_filter_panics :
    matchVersion reqLt1 rel100.version = .ok false ∧
    find_last_release none [rel100] reqLt1 =
      .panicked ("called `Option::unwrap()` on a `None` value") :=
  ⟨rfl, rfl⟩

/-- C4 (amended): when the summary carries no latest_release, every
release that selection returns under a version range satisfies the range;
a latest_release present in the summary is returned unchecked (see the
counterexample). -/
theorem C4_selected_release_satisfies_range (releases : List FModRelease)
    (req : VersionReq) (r : FModRelease)
    (h : find_last_release none releases req = .ok (some r)) :
    matchVersion req r.version = .ok true := by
  simp only [find_last_release] at h
  by_cases he : releases.isEmpty = true
  · rw [if_pos he] at h
    simp at h
  · rw [if_neg he] at h
    split at h
    · exact Panics.noConfusion h
    · rename_i filtered heq
      split at h
      · exact Panics.noConfusion h
      · rename_i r0 heq2
        have hr : r0 = r := by simpa using h
        subst hr
        exact filterMatching_mem heq r0 (mem_sortReleases (getLast?_mem' heq2))

/-- Witness for C4: release 1.2.0 is selected under <2.0.0 and satisfies it. -/
theorem C4_selected_release_satisfies_range_witness :
    matchVersion reqLt2 rel120.version = .ok true :=
  C4_selected_release_satisfies_range [rel100, rel120, rel200] reqLt2 rel120 (by decide)

/-- Counterexample for C4: a latest_release of version 5.0.0 is returned
under the range <2.0.0 although it violates the range. -/
theorem C4_latest_bypasses_constraint_counterexample :
    find_last_release (some rel500) [rel100] reqLt2 = .ok (some rel500) ∧
    matchVersion reqLt2 rel500.version = .ok false :=
  ⟨rfl, rfl⟩

/-- C5 (amended): verification renders the SHA-1 digest as lowercase hex
and compares it to the declared string exactly, hence case-sensitively:
validate succeeds iff the declared digest equals the lowercase hex digest
character for character. -/
theorem C5_validate_iff_exact_lowercase_hex (rel : FModRelease) (data : List Nat) :
    validate rel data = true ↔ rel.sha1 = sha1Hex data := by
  simp only [validate]
  rw [toLowerStr_sha1Hex, beq_iff_eq]
  exact eq_comm

set_option maxRecDepth 40000 in
set_option maxHeartbeats 1000000 in
/-- Counterexample for C5: the uppercase rendering of the digest of the
empty byte sequence denotes that digest, yet validate rejects it. -/
theorem C5_case_sensitivity_counterexample :
    toLowerStr ("DA39A3EE5E6B4B0D3255BFEF95601890AFD80709") = sha1Hex [] ∧
    validate (mkRel ("m") ⟨0, 0, 0, [], []⟩
      ("DA39A3EE5E6B4B0D3255BFEF95601890AFD80709")) [] = false :=
  ⟨by decide, by decide⟩

/-- C6: the legacy quirk rewrites both the range >=0.0.5 and the raw
string 0.0.7 by replacing 0.0. with 0.1., and the rewritten pair matches,
as does the directly parsed pair >=0.1.5 and 0.1.7. -/
theorem C6_legacy_quirk_rewrite :
    parseVersionReq (">=0.0.5") = some req005 ∧
    parseVersionReq (">=0.1.5") = some req015 ∧
    parseVersion ("0.1.7") = some ⟨0, 1, 7, [], []⟩ ∧
    matchVersion req005 (.String ("0.0.7")) = .ok true ∧
    matchVersion req015 (.Version ⟨0, 1, 7, [], []⟩) = .ok true :=
  ⟨rfl, rfl, rfl, rfl, rfl⟩

/-- C7: over releases 1.0.0, 1.2.0 and 2.0.0 (no upstream latest mark),
selection returns 1.2.0 under <2.0.0 and 2.0.0 under the universal
requirement. -/
theorem C7_selection_example :
    find_last_release none [rel100, rel120, rel200] reqLt2 = .ok (some rel120) ∧
    find_last_release none [rel100, rel120, rel200] reqStar = .ok (some rel200) :=
  ⟨by decide, by decide⟩

/-- C8: a dependency line of one token, of five or more tokens, or of
three or four tokens whose concatenated operator and version tokens do
not parse as a version requirement, is rejected with a ParseError. -/
theorem C8_malformed_rejected (s : String)
    (h : match tokensOf s with
         | [_] => True
         | [_, _, v1, v2] => parseVersionReq (v1 ++ v2) = none
         | [_, v1, v2] => parseVersionReq (v1 ++ v2) = none
         | toks => 5 ≤ toks.length) :
    fromStrDep s = .error (.ParcingError ("Invalid dependecies format: " ++ s)) := by
  rcases ht : tokensOf s with _ | ⟨a, _ | ⟨b, _ | ⟨c, _ | ⟨d, _ | ⟨e, rest⟩⟩⟩⟩⟩ <;>
    rw [ht] at h
  · have h5 : (5 : Nat) ≤ 0 := h
    exact absurd h5 (by decide)
  · simp only [fromStrDep, ht]
  · have h5 : (5 : Nat) ≤ 2 := h
    exact absurd h5 (by decide)
  · simp only [fromStrDep, ht]
    rw [(h : parseVersionReq (b ++ c) = none)]
  · simp only [fromStrDep, ht]
    rw [(h : parseVersionReq (c ++ d) = none)]
  · simp only [fromStrDep, ht]

/-- Witness for C8: the one-token line x is rejected. -/
theorem C8_malformed_rejected_witness :
    fromStrDep ("x") = .error (.ParcingError ("Invalid dependecies format: " ++ "x")) :=
  C8_malformed_rejected ("x") (by exact trivial)

/-- C9: the five marker strings parse to exactly their variants with the
empty marker defaulting to Required, every variant prints back its unique
marker, and any other string is rejected with an invalid-prefix error. -/
theorem C9_marker_bijection :
    (fromStrPreffix ("") = .ok .Required ∧
     fromStrPreffix ("!") = .ok .Incompatible ∧
     fromStrPreffix ("?") = .ok .Optional ∧
     fromStrPreffix ("(?)") = .ok .HiddenOptional ∧
     fromStrPreffix ("~") = .ok .NonChanging) ∧
    (∀ p, fromStrPreffix (preffixToString p) = .ok p) ∧
    (∀ p q, preffixToString p = preffixToString q → p = q) ∧
    (∀ s, s ≠ "" → s ≠ "!" → s ≠ "?" → s ≠ "(?)" → s ≠ "~" →
      fromStrPreffix s = .error (.InvalidPreffix s)) := by
  refine ⟨⟨rfl, rfl, rfl, rfl, rfl⟩, ?_, ?_, ?_⟩
  · intro p
    cases p <;> rfl
  · intro p q
    cases p <;> cases q <;> decide
  · intro s h1 h2 h3 h4 h5
    rw [fromStrPreffix, if_neg h2, if_neg h3, if_neg h4, if_neg h5, if_neg h1]

/-- Witness for C9: the unknown marker zz is rejected. -/
theorem C9_marker_bijection_witness :
    fromStrPreffix ("zz") = .error (.InvalidPreffix ("zz")) :=
  C9_marker_bijection.2.2.2 ("zz") (by decide) (by decide) (by decide)
    (by decide) (by decide)

/-- C10: on a raw version token, match_version returns normally exactly
when the string starts with 0.0. and both the rewritten requirement text
and the rewritten version string parse; in every other case it panics. -/
theorem C10_raw_match_totality (req : VersionReq) (s : String) :
    (∃ b, matchVersion req (.String s) = .ok b) ↔
      (startsWithStr s ("0.0.") = true ∧
       (parseVersionReq (replaceStr (reqToString req) ("0.0.") ("0.1."))).isSome = true ∧
       (parseVersion (replaceStr s ("0.0.") ("0.1."))).isSome = true) := by
  cases hsw : startsWithStr s ("0.0.") with
  | false => simp [matchVersion, hsw]
  | true =>
    rcases hr : parseVersionReq (replaceStr (reqToString req) ("0.0.") ("0.1.")) with _ | r2
    · simp [matchVersion, hsw, hr]
    · rcases hv : parseVersion (replaceStr s ("0.0.") ("0.1.")) with _ | v2
      · simp [matchVersion, hsw, hr, hv]
      · simp [matchVersion, hsw, hr, hv]
